import Mathlib

/-!
Verification of the pulse-survey dashboard's two data transforms
(`get_slice_membership` and `make_long_reason_dataframe`) from
`streamlit_app.py`, against the design document.  Dataframes are
embedded as lists of rows; the pandas operations used by the code
(`isin`, element-wise `&`, `wide_to_long`, `fillna`, `groupby`/`mean`)
are modelled explicitly.
-/

namespace Pulse

/-- One survey record, restricted to the demographic fields read by
`get_slice_membership`.  Every field is optional: a `none` models a
missing value (`NaN`) in the dataframe. -/
structure Person where
  gender : Option String
  education : Option String
  race : Option String
  age : Option Int
  marital_status : Option String
  income : Option String
deriving DecidableEq, Repr

/-- `series.isin(values)` for an optional string field: a missing value
is never a member of the value list. -/
def isin (v : Option String) (vals : List String) : Bool :=
  match v with
  | some x => vals.contains x
  | none => false

/-- `df['age'] >= lo` on an optional numeric field: a comparison against
a missing value is false. -/
def ageGe (v : Option Int) (lo : Int) : Bool :=
  match v with
  | some a => decide (lo ≤ a)
  | none => false

/-- `df['age'] <= hi` on an optional numeric field: a comparison against
a missing value is false. -/
def ageLe (v : Option Int) (hi : Int) : Bool :=
  match v with
  | some a => decide (a ≤ hi)
  | none => false

/-- Embedding of `get_slice_membership` (streamlit_app.py, lines 57-72).
The labels series starts all-true (`pd.Series([1] * len(df))`, where the
integer `1` under pandas' `&` behaves exactly as boolean truth) and each
supplied filter is ANDed in.  A Python-falsy filter value (`None` or an
empty selection) is modelled by the empty list, and `if genders:` etc.
becomes an emptiness test; `age_range` keeps its `is not None` test. -/
def get_slice_membership (df : List Person) (genders : List String)
    (educations : List String) (races : List String)
    (age_range : Option (Int × Int)) (marital_status : List String)
    (income : List String) : List Bool :=
  let labels := List.replicate df.length true
  let labels := if genders.isEmpty then labels
    else List.zipWith and labels (df.map fun p => isin p.gender genders)
  let labels := if educations.isEmpty then labels
    else List.zipWith and labels (df.map fun p => isin p.education educations)
  let labels := if races.isEmpty then labels
    else List.zipWith and labels (df.map fun p => isin p.race races)
  let labels := match age_range with
    | none => labels
    | some r => List.zipWith and
        (List.zipWith and labels (df.map fun p => ageGe p.age r.1))
        (df.map fun p => ageLe p.age r.2)
  let labels := if marital_status.isEmpty then labels
    else List.zipWith and labels (df.map fun p => isin p.marital_status marital_status)
  let labels := if income.isEmpty then labels
    else List.zipWith and labels (df.map fun p => isin p.income income)
  labels

/-- The per-record membership value computed by `get_slice_membership`,
as a single boolean expression (used to relate the series-at-a-time
implementation to per-record statements). -/
def sliceMember (genders educations races : List String)
    (age_range : Option (Int × Int)) (marital_status income : List String)
    (p : Person) : Bool :=
  true
    && (genders.isEmpty || isin p.gender genders)
    && (educations.isEmpty || isin p.education educations)
    && (races.isEmpty || isin p.race races)
    && (match age_range with
        | none => true
        | some r => ageGe p.age r.1 && ageLe p.age r.2)
    && (marital_status.isEmpty || isin p.marital_status marital_status)
    && (income.isEmpty || isin p.income income)

/-- The slice predicate as the specification words it: a record belongs
to the slice exactly when it satisfies every supplied criterion
(set-membership for each supplied set, an inclusive age range), and a
criterion that is not supplied is vacuously true. -/
def SpecMember (genders educations races : List String)
    (age_range : Option (Int × Int)) (marital_status income : List String)
    (p : Person) : Prop :=
  (genders ≠ [] → ∃ g ∈ genders, p.gender = some g) ∧
  (educations ≠ [] → ∃ e ∈ educations, p.education = some e) ∧
  (races ≠ [] → ∃ r ∈ races, p.race = some r) ∧
  (∀ lo hi, age_range = some (lo, hi) → ∃ a, p.age = some a ∧ lo ≤ a ∧ a ≤ hi) ∧
  (marital_status ≠ [] → ∃ m ∈ marital_status, p.marital_status = some m) ∧
  (income ≠ [] → ∃ v ∈ income, p.income = some v)

lemma zip_and_map {α : Type} (l : List α) (f g : α → Bool) :
    List.zipWith and (l.map f) (l.map g) = l.map fun x => f x && g x := by
  induction l with
  | nil => rfl
  | cons x t ih => simp [ih]

lemma replicate_len {α : Type} (l : List α) :
    List.replicate l.length true = l.map fun _ => true := by
  induction l with
  | nil => rfl
  | cons x t ih => rw [List.length_cons, List.replicate_succ, List.map_cons, ih]

lemma step_filter {α : Type} (c : Bool) (l : List α) (f t : α → Bool) :
    (if c then l.map f else List.zipWith and (l.map f) (l.map t))
      = l.map fun x => f x && (c || t x) := by
  cases c
  · rw [if_neg (by simp), zip_and_map]
    simp
  · simp

lemma step_age {α : Type} (a : Option (Int × Int)) (l : List α) (f : α → Bool)
    (g1 g2 : Int × Int → α → Bool) :
    (match a with
      | none => l.map f
      | some r => List.zipWith and
          (List.zipWith and (l.map f) (l.map (g1 r))) (l.map (g2 r)))
      = l.map fun x => f x &&
          (match a with | none => true | some r => g1 r x && g2 r x) := by
  cases a
  · simp
  · simp [zip_and_map, Bool.and_assoc]

/-- The series-at-a-time filter computes `sliceMember` record by record. -/
lemma slice_eq_map (df : List Person) (genders educations races : List String)
    (age_range : Option (Int × Int)) (marital_status income : List String) :
    get_slice_membership df genders educations races age_range marital_status income
      = df.map (sliceMember genders educations races age_range marital_status income) := by
  simp only [get_slice_membership]
  rw [replicate_len, step_filter, step_filter, step_filter, step_age,
    step_filter, step_filter]
  rfl

lemma isin_iff (v : Option String) (vals : List String) :
    isin v vals = true ↔ ∃ x ∈ vals, v = some x := by
  cases v with
  | none => simp [isin]
  | some x => simp [isin, eq_comm]

lemma orEmpty_iff (s : List String) (v : Option String) :
    (s.isEmpty || isin v s) = true ↔ (s ≠ [] → ∃ x ∈ s, v = some x) := by
  by_cases h : s = [] <;> simp [h, isin_iff]

lemma matchAge_iff (a : Option (Int × Int)) (v : Option Int) :
    ((match a with | none => true | some r => ageGe v r.1 && ageLe v r.2) = true)
      ↔ (∀ lo hi, a = some (lo, hi) → ∃ x, v = some x ∧ lo ≤ x ∧ x ≤ hi) := by
  cases a with
  | none => simp
  | some r =>
    obtain ⟨lo, hi⟩ := r
    cases v <;> simp [ageGe, ageLe]

/-- `sliceMember` agrees with the specification's per-record predicate. -/
lemma sliceMember_true_iff (genders educations races : List String)
    (age_range : Option (Int × Int)) (marital_status income : List String)
    (p : Person) :
    sliceMember genders educations races age_range marital_status income p = true
      ↔ SpecMember genders educations races age_range marital_status income p := by
  unfold sliceMember SpecMember
  rw [Bool.true_and, Bool.and_eq_true, Bool.and_eq_true, Bool.and_eq_true,
    Bool.and_eq_true, Bool.and_eq_true]
  rw [orEmpty_iff, orEmpty_iff, orEmpty_iff, orEmpty_iff, orEmpty_iff, matchAge_iff]
  tauto

/-- C2: the filter returns a vector of the same length and order as the
input, whose entry for a record is true exactly when the record satisfies
every supplied predicate (set membership for supplied sets, an inclusive
age range, and vacuous truth for absent filters). -/
theorem slice_membership_spec (df : List Person)
    (genders educations races : List String) (age_range : Option (Int × Int))
    (marital_status income : List String) :
    List.Forall₂
      (fun b p => b = true ↔
        SpecMember genders educations races age_range marital_status income p)
      (get_slice_membership df genders educations races age_range marital_status income)
      df := by
  rw [slice_eq_map, List.forall₂_map_left_iff]
  refine List.forall₂_same.mpr fun p _ => ?_
  exact sliceMember_true_iff genders educations races age_range marital_status income p

/-- C4: with no filter supplied (all set filters absent or empty, and no
age range), every record is a member of the slice. -/
theorem slice_membership_all_true (df : List Person) :
    get_slice_membership df [] [] [] none [] []
      = List.replicate df.length true := by
  simp [get_slice_membership]

/-- C7: the filter is total — for every record set and every combination
of absent, empty, or populated filter values it returns a membership
vector of the same length as the input (no failure). -/
theorem slice_membership_total (df : List Person)
    (genders educations races : List String) (age_range : Option (Int × Int))
    (marital_status income : List String) :
    (get_slice_membership df genders educations races age_range
      marital_status income).length = df.length := by
  rw [slice_eq_map]
  exact List.length_map df _

/-- Pointwise monotonicity of the membership value when filters are added. -/
lemma sliceMember_mono (g1 e1 r1 : List String) (a1 : Option (Int × Int))
    (m1 i1 : List String) (g2 e2 r2 : List String) (a2 : Option (Int × Int))
    (m2 i2 : List String) (p : Person)
    (hg : g1 = [] ∨ g2 = g1) (he : e1 = [] ∨ e2 = e1) (hr : r1 = [] ∨ r2 = r1)
    (ha : a1 = none ∨ a2 = a1) (hm : m1 = [] ∨ m2 = m1) (hi : i1 = [] ∨ i2 = i1)
    (h : sliceMember g2 e2 r2 a2 m2 i2 p = true) :
    sliceMember g1 e1 r1 a1 m1 i1 p = true := by
  simp only [sliceMember, Bool.true_and, Bool.and_eq_true] at h ⊢
  rcases h with ⟨⟨⟨⟨⟨h2g, h2e⟩, h2r⟩, h2a⟩, h2m⟩, h2i⟩
  refine ⟨⟨⟨⟨⟨?_, ?_⟩, ?_⟩, ?_⟩, ?_⟩, ?_⟩
  · rcases hg with h | h
    · subst h; simp
    · subst h; exact h2g
  · rcases he with h | h
    · subst h; simp
    · subst h; exact h2e
  · rcases hr with h | h
    · subst h; simp
    · subst h; exact h2r
  · rcases ha with h | h
    · subst h; rfl
    · subst h; exact h2a
  · rcases hm with h | h
    · subst h; simp
    · subst h; exact h2m
  · rcases hi with h | h
    · subst h; simp
    · subst h; exact h2i

/-- C9: supplying additional filter values is monotone — if the second
configuration keeps every filter of the first and supplies values for
some filters the first left unset, then the second membership vector is
pointwise below the first. -/
theorem slice_membership_mono (df : List Person)
    (g1 e1 r1 : List String) (a1 : Option (Int × Int)) (m1 i1 : List String)
    (g2 e2 r2 : List String) (a2 : Option (Int × Int)) (m2 i2 : List String)
    (hg : g1 = [] ∨ g2 = g1) (he : e1 = [] ∨ e2 = e1) (hr : r1 = [] ∨ r2 = r1)
    (ha : a1 = none ∨ a2 = a1) (hm : m1 = [] ∨ m2 = m1) (hi : i1 = [] ∨ i2 = i1) :
    List.Forall₂ (fun b2 b1 => b2 = true → b1 = true)
      (get_slice_membership df g2 e2 r2 a2 m2 i2)
      (get_slice_membership df g1 e1 r1 a1 m1 i1) := by
  rw [slice_eq_map, slice_eq_map, List.forall₂_map_left_iff,
    List.forall₂_map_right_iff]
  refine List.forall₂_same.mpr fun p _ => ?_
  exact sliceMember_mono g1 e1 r1 a1 m1 i1 g2 e2 r2 a2 m2 i2 p hg he hr ha hm hi

/-- Witness for C9 at a concrete record set and filter pair. -/
theorem slice_membership_mono_witness :
    List.Forall₂ (fun b2 b1 => b2 = true → b1 = true)
      (get_slice_membership
        [⟨some "Female", some "Some college", some "White", some 30,
          some "Married", some "<$25,000"⟩]
        ["Male"] [] [] (some (40, 60)) [] [])
      (get_slice_membership
        [⟨some "Female", some "Some college", some "White", some 30,
          some "Married", some "<$25,000"⟩]
        [] [] [] none [] []) :=
  slice_membership_mono _ [] [] [] none [] [] ["Male"] [] [] (some (40, 60)) [] []
    (Or.inl rfl) (Or.inl rfl) (Or.inl rfl) (Or.inl rfl) (Or.inl rfl) (Or.inl rfl)

/-- A cell of the survey dataframe: a boolean indicator, a string
(categorical value), an integer (weeks, household sizes), or a missing
value (`NaN`). -/
inductive Cell where
  | bool (b : Bool)
  | str (s : String)
  | int (n : Int)
  | na
deriving DecidableEq, Repr

/-- A dataframe: named columns and a list of rows, each row holding one
cell per column. -/
structure DF where
  cols : List String
  rows : List (List Cell)
deriving DecidableEq, Repr

/-- Read the cell of row `r` in column `c`; a column that does not exist
reads as missing. -/
def getCell (df : DF) (r : List Cell) (c : String) : Cell :=
  match df.cols.findIdx? (· == c) with
  | some i => r.getD i Cell.na
  | none => Cell.na

/-- Python `s.startswith(p)`, on the underlying character lists. -/
def pyStartsWith (s p : String) : Bool :=
  p.data.isPrefixOf s.data

/-- The indicator label of a column: its name with the shared stub
removed (the suffix captured by `pd.wide_to_long(..., suffix='.+')`). -/
def labelOf (pfx c : String) : String :=
  String.mk (c.data.drop pfx.data.length)

/-- The column name carrying the indicator with the given label. -/
def colOf (pfx lbl : String) : String :=
  String.mk (pfx.data ++ lbl.data)

/-- `fillna(False)` on one cell. -/
def fillnaFalse (c : Cell) : Cell :=
  match c with
  | Cell.na => Cell.bool false
  | c => c

/-- Numeric value of a cell as seen by the `'mean'` aggregation
(booleans count as 1/0; the indicator columns this is applied to hold
only booleans or missing values, which the theorems assume). -/
def cellVal (c : Cell) : ℚ :=
  match c with
  | Cell.bool b => if b then 1 else 0
  | Cell.int n => (n : ℚ)
  | Cell.str _ => 0
  | Cell.na => 0

/-- One row of the intermediate long-format table of
`pd.wide_to_long`: grouping keys (week, indicator label, extra fields)
and the indicator value after `fillna(False)`. -/
structure LongRow where
  week : Cell
  label : String
  extras : List Cell
  val : Cell
deriving DecidableEq, Repr

/-- A grouping key of the long table. -/
structure GKey where
  week : Cell
  label : String
  extras : List Cell
deriving DecidableEq, Repr

def keyOf (lr : LongRow) : GKey :=
  ⟨lr.week, lr.label, lr.extras⟩

/-- `groupby` silently drops any group whose key holds a missing value. -/
def keyOk (k : GKey) : Bool :=
  decide (k.week ≠ Cell.na) && k.extras.all fun e => decide (e ≠ Cell.na)

/-- The long row generated from record `r` and indicator column `c`:
week and the extra grouping columns are kept as identifiers, the
indicator value gets its missing values filled with `False`. -/
def buildLong (df : DF) (pfx : String) (add_fields : List String)
    (r : List Cell) (c : String) : LongRow :=
  { week := getCell df r "week"
    label := labelOf pfx c
    extras := add_fields.map (getCell df r)
    val := fillnaFalse (getCell df r c) }

/-- The long rows generated from one record: one row per column whose
name starts with the stub. -/
def longRowsOf (df : DF) (pfx : String) (add_fields : List String)
    (r : List Cell) : List LongRow :=
  (df.cols.filter fun c => pyStartsWith c pfx).map (buildLong df pfx add_fields r)

def longRows (df : DF) (pfx : String) (add_fields : List String) : List LongRow :=
  df.rows.flatMap (longRowsOf df pfx add_fields)

/-- One row of the aggregated output table; `agree` is the `'% agree'`
column. -/
structure GroupRow where
  week : Cell
  label : String
  extras : List Cell
  agree : ℚ
deriving DecidableEq, Repr

/-- Embedding of `make_long_reason_dataframe` (streamlit_app.py, lines
74-83): select the columns starting with the stub together with the
extra grouping columns and `week`, reshape wide to long, fill missing
indicator values with `False`, group by (week, label, extras), take the
mean indicator value per group and scale it to a percentage.  `pandas`
sorts the group keys; here the groups are listed in a duplicate-free
order instead, which no claim distinguishes. -/
def make_long_reason_dataframe (df : DF) (pfx : String) (field_name : String)
    (add_fields : List String) : List GroupRow :=
  let ls := longRows df pfx add_fields
  let keys := ((ls.map keyOf).filter keyOk).dedup
  keys.map fun k =>
    let vals := (ls.filter fun lr => decide (keyOf lr = k)).map fun lr => cellVal lr.val
    { week := k.week, label := k.label, extras := k.extras,
      agree := vals.sum / (vals.length : ℚ) * 100 }

/-- The key of an output row. -/
def rowKey (g : GroupRow) : GKey :=
  ⟨g.week, g.label, g.extras⟩

/-- The records belonging to a group: those whose week and extra
grouping values match the key. -/
def groupRecords (df : DF) (add_fields : List String) (w : Cell)
    (ex : List Cell) : List (List Cell) :=
  df.rows.filter fun r =>
    decide (getCell df r "week" = w ∧ add_fields.map (getCell df r) = ex)

/-- Boolean reading of an indicator cell, a missing value counting as
false (the specification's step 3). -/
def indicatorTrue (c : Cell) : Bool :=
  match c with
  | Cell.bool b => b
  | _ => false

/-- The specification's percent-agree value of a group: the mean of the
boolean indicator over the group's records, expressed as a percentage. -/
def specPercentAgree (df : DF) (pfx : String) (add_fields : List String)
    (k : GKey) : ℚ :=
  let g := groupRecords df add_fields k.week k.extras
  100 * (((g.filter fun r =>
    indicatorTrue (getCell df r (colOf pfx k.label))).length : ℚ) / (g.length : ℚ))

/-- A cell that a boolean indicator column may hold. -/
def isBoolNa (c : Cell) : Bool :=
  match c with
  | Cell.bool _ => true
  | Cell.na => true
  | _ => false

/-- The indicator columns selected by the stub hold only booleans or
missing values. -/
def BoolNaCols (df : DF) (pfx : String) : Prop :=
  ∀ r ∈ df.rows, ∀ c ∈ df.cols, pyStartsWith c pfx = true →
    isBoolNa (getCell df r c) = true

instance (df : DF) (p : String) : Decidable (BoolNaCols df p) :=
  inferInstanceAs (Decidable (∀ r ∈ df.rows, ∀ c ∈ df.cols,
    pyStartsWith c p = true → isBoolNa (getCell df r c) = true))

lemma pyStartsWith_iff (c p : String) :
    pyStartsWith c p = true ↔ ∃ t, c.data = p.data ++ t := by
  rw [pyStartsWith, List.isPrefixOf_iff_prefix]
  constructor
  · rintro ⟨t, ht⟩
    exact ⟨t, ht.symm⟩
  · rintro ⟨t, ht⟩
    exact ⟨t, ht.symm⟩

lemma colOf_startsWith (p lbl : String) : pyStartsWith (colOf p lbl) p = true :=
  (pyStartsWith_iff _ _).mpr ⟨lbl.data, rfl⟩

lemma labelOf_colOf (p lbl : String) : labelOf p (colOf p lbl) = lbl := by
  simp only [labelOf, colOf, List.drop_left]

lemma eq_colOf_of_startsWith {p c : String} (h : pyStartsWith c p = true) :
    c = colOf p (labelOf p c) := by
  obtain ⟨t, ht⟩ := (pyStartsWith_iff c p).mp h
  simp only [labelOf, colOf, ht, List.drop_left]
  rw [← ht]

lemma filter_flatMap {α β : Type} (l : List α) (f : α → List β) (p : β → Bool) :
    (l.flatMap f).filter p = l.flatMap fun a => (f a).filter p := by
  induction l with
  | nil => rfl
  | cons a t ih => simp only [List.flatMap_cons, List.filter_append, ih]

lemma flatMap_eq_filter_map {α β : Type} (rows : List α) (g : α → List β)
    (q : α → Bool) (f : α → β)
    (h : ∀ r ∈ rows, g r = if q r then [f r] else []) :
    rows.flatMap g = (rows.filter q).map f := by
  induction rows with
  | nil => rfl
  | cons r t ih =>
    rw [List.flatMap_cons, h r (List.mem_cons_self r t),
      ih fun x hx => h x (List.mem_cons_of_mem r hx)]
    cases hq : q r
    · rw [List.filter_cons_of_neg (by simp [hq]), if_neg (by simp [hq]),
        List.nil_append]
    · rw [List.filter_cons_of_pos (by simp [hq]), if_pos rfl, List.map_cons,
        List.singleton_append]

lemma filter_eq_singleton {α : Type} {l : List α} {a : α} {p : α → Bool}
    (hnd : l.Nodup) (ha : a ∈ l) (hp : ∀ x ∈ l, p x = true ↔ x = a) :
    l.filter p = [a] := by
  induction l with
  | nil => cases ha
  | cons b t ih =>
    rcases List.mem_cons.mp ha with rfl | hat
    · rw [List.filter_cons_of_pos ((hp a (List.mem_cons_self _ _)).mpr rfl)]
      have ht : t.filter p = [] := by
        refine List.filter_eq_nil_iff.mpr fun x hx hpx => ?_
        have hxb := (hp x (List.mem_cons_of_mem a hx)).mp hpx
        subst hxb
        exact (List.nodup_cons.mp hnd).1 hx
      rw [ht]
    · have hba : b ≠ a := fun hba => (List.nodup_cons.mp hnd).1 (hba ▸ hat)
      rw [List.filter_cons_of_neg (by
        intro hpb
        exact hba ((hp b (List.mem_cons_self _ _)).mp hpb))]
      exact ih (List.nodup_cons.mp hnd).2 hat
        fun x hx => hp x (List.mem_cons_of_mem b hx)

lemma keyOf_build (df : DF) (p : String) (afs : List String) (r : List Cell)
    (c : String) :
    keyOf (buildLong df p afs r c)
      = ⟨getCell df r "week", labelOf p c, afs.map (getCell df r)⟩ := rfl

/-- Decomposition of one group of the long table: the long rows carrying
key `k` are exactly one row per record of the group, all reading the
column named by the key's label. -/
lemma grouped_longRows (df : DF) (p : String) (afs : List String) (k : GKey)
    (hnd : df.cols.Nodup) (hcol : colOf p k.label ∈ df.cols) :
    (longRows df p afs).filter (fun lr => decide (keyOf lr = k))
      = (groupRecords df afs k.week k.extras).map fun r =>
          buildLong df p afs r (colOf p k.label) := by
  rw [longRows, filter_flatMap, groupRecords]
  refine flatMap_eq_filter_map _ _ _ _ fun r _ => ?_
  rw [longRowsOf, List.filter_map]
  by_cases hr : getCell df r "week" = k.week ∧ afs.map (getCell df r) = k.extras
  · rw [if_pos (by simp [hr.1, hr.2])]
    have hsel : (df.cols.filter fun c => pyStartsWith c p).filter
        ((fun lr => decide (keyOf lr = k)) ∘ buildLong df p afs r)
        = [colOf p k.label] := by
      refine filter_eq_singleton (hnd.filter _) ?_ fun c hc => ?_
      · exact List.mem_filter.mpr ⟨hcol, colOf_startsWith p k.label⟩
      · have hcp : pyStartsWith c p = true := (List.mem_filter.mp hc).2
        simp only [Function.comp_apply, keyOf_build, decide_eq_true_eq]
        constructor
        · intro hk
          have hlbl : labelOf p c = k.label := congrArg GKey.label hk
          rw [eq_colOf_of_startsWith hcp, hlbl]
        · intro hceq
          subst hceq
          rw [hr.1, hr.2, labelOf_colOf]
    rw [hsel]
    rfl
  · rw [if_neg (by simpa using hr)]
    refine List.map_eq_nil_iff.mpr (List.filter_eq_nil_iff.mpr fun c _ hc => ?_)
    simp only [Function.comp_apply, keyOf_build, decide_eq_true_eq] at hc
    exact hr ⟨congrArg GKey.week hc, congrArg GKey.extras hc⟩

/-- The values averaged in a group are the indicator values of the
group's records. -/
lemma group_vals (df : DF) (p : String) (afs : List String) (k : GKey)
    (hnd : df.cols.Nodup) (hcol : colOf p k.label ∈ df.cols) :
    ((longRows df p afs).filter (fun lr => decide (keyOf lr = k))).map
        (fun lr => cellVal lr.val)
      = (groupRecords df afs k.week k.extras).map fun r =>
          cellVal (fillnaFalse (getCell df r (colOf p k.label))) := by
  rw [grouped_longRows df p afs k hnd hcol, List.map_map]
  rfl

lemma cellVal_fillna (c : Cell) (h : isBoolNa c = true) :
    cellVal (fillnaFalse c) = if indicatorTrue c then 1 else 0 := by
  cases c <;> simp_all [cellVal, fillnaFalse, indicatorTrue, isBoolNa]

lemma sum_if_count {α : Type} (l : List α) (q : α → Bool) :
    (l.map fun x => if q x then (1 : ℚ) else 0).sum = ((l.filter q).length : ℚ) := by
  induction l with
  | nil => rfl
  | cons x t ih =>
    cases hx : q x
    · rw [List.map_cons, List.sum_cons, if_neg (by simp [hx]),
        List.filter_cons_of_neg (by simp [hx]), ih, zero_add]
    · rw [List.map_cons, List.sum_cons, if_pos (by simp [hx]),
        List.filter_cons_of_pos (by simp [hx]), ih, List.length_cons]
      push_cast
      ring

/-- The output rows' keys are the distinct non-missing keys of the long
table. -/
lemma make_long_map_rowKey (df : DF) (p fn : String) (afs : List String) :
    (make_long_reason_dataframe df p fn afs).map rowKey
      = (((longRows df p afs).map keyOf).filter keyOk).dedup := by
  simp only [make_long_reason_dataframe]
  rw [List.map_map]
  exact (List.map_congr_left fun k _ => rfl).trans (List.map_id _)

/-- Which keys occur in the long table. -/
lemma key_mem_iff (df : DF) (p : String) (afs : List String) (w : Cell)
    (lbl : String) (ex : List Cell) :
    (⟨w, lbl, ex⟩ : GKey) ∈ (longRows df p afs).map keyOf
      ↔ (colOf p lbl ∈ df.cols ∧
          ∃ r ∈ df.rows, getCell df r "week" = w ∧ afs.map (getCell df r) = ex) := by
  constructor
  · intro h
    obtain ⟨lr, hlr, hk⟩ := List.mem_map.mp h
    obtain ⟨r, hr, hlr2⟩ := List.mem_flatMap.mp hlr
    obtain ⟨c, hc, hbuild⟩ := List.mem_map.mp hlr2
    have hcp : pyStartsWith c p = true := (List.mem_filter.mp hc).2
    rw [← hbuild, keyOf_build] at hk
    have hw : getCell df r "week" = w := congrArg GKey.week hk
    have hlbl : labelOf p c = lbl := congrArg GKey.label hk
    have hex : afs.map (getCell df r) = ex := congrArg GKey.extras hk
    refine ⟨?_, r, hr, hw, hex⟩
    rw [← hlbl, ← eq_colOf_of_startsWith hcp]
    exact (List.mem_filter.mp hc).1
  · rintro ⟨hcol, r, hr, hw, hex⟩
    refine List.mem_map.mpr ⟨buildLong df p afs r (colOf p lbl), ?_, ?_⟩
    · refine List.mem_flatMap.mpr ⟨r, hr, ?_⟩
      rw [longRowsOf]
      exact List.mem_map.mpr ⟨colOf p lbl,
        List.mem_filter.mpr ⟨hcol, colOf_startsWith p lbl⟩, rfl⟩
    · rw [keyOf_build, hw, hex, labelOf_colOf]

lemma sum_le_length (L : List ℚ) (h : ∀ v ∈ L, v ≤ 1) :
    L.sum ≤ (L.length : ℚ) := by
  induction L with
  | nil => simp
  | cons v t ih =>
    rw [List.sum_cons, List.length_cons]
    push_cast
    have hv := h v (List.mem_cons_self _ _)
    have ht := ih fun x hx => h x (List.mem_cons_of_mem v hx)
    linarith

lemma mean_scaled_bounds (L : List ℚ) (h : ∀ v ∈ L, 0 ≤ v ∧ v ≤ 1) :
    0 ≤ L.sum / (L.length : ℚ) * 100 ∧ L.sum / (L.length : ℚ) * 100 ≤ 100 := by
  have h0 : 0 ≤ L.sum := List.sum_nonneg fun v hv => (h v hv).1
  by_cases hL : L = []
  · subst hL
    norm_num
  · have hpos : (0 : ℚ) < (L.length : ℚ) := by
      have := List.length_pos.mpr hL
      exact_mod_cast this
    have h1 : L.sum / (L.length : ℚ) ≤ 1 :=
      (div_le_one hpos).mpr (sum_le_length L fun v hv => (h v hv).2)
    have h2 : 0 ≤ L.sum / (L.length : ℚ) := div_nonneg h0 (le_of_lt hpos)
    constructor
    · positivity
    · calc L.sum / (L.length : ℚ) * 100 ≤ 1 * 100 :=
            mul_le_mul_of_nonneg_right h1 (by norm_num)
        _ = 100 := one_mul 100

/-- C1: `make_long_reason_dataframe` emits exactly one row per (week,
indicator label, extra grouping values) combination realised by the
records — the labels being the suffixes of the columns selected by the
stub — and each row's percent-agree value is the mean of the boolean
indicator over the records of its group (missing indicator values
counting as false), times 100.  The hypotheses state that the column
names are distinct and that the stub, `week` and extra-field names do
not collide, which is what `pd.wide_to_long` requires, and that the
indicator columns hold booleans or missing values. -/
theorem make_long_correct (df : DF) (stub field_name : String)
    (add_fields : List String)
    (hnd : df.cols.Nodup) (hstub : stub ∉ df.cols)
    (hwk : pyStartsWith "week" stub = false)
    (hadd : ∀ a ∈ add_fields, pyStartsWith a stub = false ∧ a ≠ "week" ∧ a ≠ "id")
    (hbool : BoolNaCols df stub) :
    ((make_long_reason_dataframe df stub field_name add_fields).map rowKey).Nodup ∧
    (∀ w lbl ex,
      (∃ g ∈ make_long_reason_dataframe df stub field_name add_fields,
          rowKey g = ⟨w, lbl, ex⟩)
        ↔ (keyOk ⟨w, lbl, ex⟩ = true ∧ colOf stub lbl ∈ df.cols ∧
            ∃ r ∈ df.rows, getCell df r "week" = w ∧
              add_fields.map (getCell df r) = ex)) ∧
    (∀ g ∈ make_long_reason_dataframe df stub field_name add_fields,
      g.agree = specPercentAgree df stub add_fields (rowKey g)) := by
  refine ⟨?_, ?_, ?_⟩
  · rw [make_long_map_rowKey]
    exact List.nodup_dedup _
  · intro w lbl ex
    constructor
    · rintro ⟨g, hg, hkey⟩
      have hk : (⟨w, lbl, ex⟩ : GKey)
          ∈ (make_long_reason_dataframe df stub field_name add_fields).map rowKey :=
        List.mem_map.mpr ⟨g, hg, hkey⟩
      rw [make_long_map_rowKey] at hk
      have hk2 := List.mem_filter.mp (List.mem_dedup.mp hk)
      obtain ⟨hcol, hrec⟩ := (key_mem_iff df stub add_fields w lbl ex).mp hk2.1
      exact ⟨hk2.2, hcol, hrec⟩
    · rintro ⟨hok, hcol, hrec⟩
      have hmem : (⟨w, lbl, ex⟩ : GKey) ∈ (longRows df stub add_fields).map keyOf :=
        (key_mem_iff df stub add_fields w lbl ex).mpr ⟨hcol, hrec⟩
      have hk : (⟨w, lbl, ex⟩ : GKey)
          ∈ (((longRows df stub add_fields).map keyOf).filter keyOk).dedup :=
        List.mem_dedup.mpr (List.mem_filter.mpr ⟨hmem, hok⟩)
      rw [← make_long_map_rowKey df stub field_name add_fields] at hk
      exact List.mem_map.mp hk
  · intro g hg
    simp only [make_long_reason_dataframe] at hg
    obtain ⟨k, hk, hgk⟩ := List.mem_map.mp hg
    have hkmem := (List.mem_filter.mp (List.mem_dedup.mp hk)).1
    have hcol : colOf stub k.label ∈ df.cols :=
      ((key_mem_iff df stub add_fields k.week k.label k.extras).mp hkmem).1
    rw [← hgk]
    show (((longRows df stub add_fields).filter fun lr => decide (keyOf lr = k)).map
        fun lr => cellVal lr.val).sum
      / ((((longRows df stub add_fields).filter fun lr => decide (keyOf lr = k)).map
        fun lr => cellVal lr.val).length : ℚ) * 100
      = specPercentAgree df stub add_fields k
    rw [group_vals df stub add_fields k hnd hcol]
    have hcong : (groupRecords df add_fields k.week k.extras).map
        (fun r => cellVal (fillnaFalse (getCell df r (colOf stub k.label))))
        = (groupRecords df add_fields k.week k.extras).map
          fun r => if indicatorTrue (getCell df r (colOf stub k.label)) then (1 : ℚ) else 0 := by
      refine List.map_congr_left fun r hrg => ?_
      exact cellVal_fillna _ (hbool r (List.mem_of_mem_filter hrg) _ hcol
        (colOf_startsWith stub k.label))
    rw [hcong, sum_if_count, List.length_map, specPercentAgree]
    ring

/-- Witness input for the aggregator claims: four columns, two of them
sharing the indicator stub, three records over two weeks. -/
def dfW : DF :=
  { cols := ["spend_source_stimulus", "spend_source_wages", "income", "week"]
    rows := [
      [Cell.bool true, Cell.bool false, Cell.str "low", Cell.int 20],
      [Cell.na, Cell.bool true, Cell.str "low", Cell.int 20],
      [Cell.bool true, Cell.na, Cell.str "high", Cell.int 25]] }

/-- Witness for C1 at `dfW`, grouping additionally by income. -/
theorem make_long_correct_witness :
    ((make_long_reason_dataframe dfW "spend_source_" "Source" ["income"]).map rowKey).Nodup ∧
    (∀ w lbl ex,
      (∃ g ∈ make_long_reason_dataframe dfW "spend_source_" "Source" ["income"],
          rowKey g = ⟨w, lbl, ex⟩)
        ↔ (keyOk ⟨w, lbl, ex⟩ = true ∧ colOf "spend_source_" lbl ∈ dfW.cols ∧
            ∃ r ∈ dfW.rows, getCell dfW r "week" = w ∧
              ["income"].map (getCell dfW r) = ex)) ∧
    (∀ g ∈ make_long_reason_dataframe dfW "spend_source_" "Source" ["income"],
      g.agree = specPercentAgree dfW "spend_source_" ["income"] (rowKey g)) :=
  make_long_correct dfW "spend_source_" "Source" ["income"]
    (by decide) (by decide) (by decide) (by decide) (by decide)

/-- C3: when the indicator columns selected by the stub hold only
booleans or missing values, every percent-agree value of the output lies
within [0, 100]. -/
theorem percent_agree_bounded (df : DF) (stub field_name : String)
    (add_fields : List String) (hbool : BoolNaCols df stub) :
    ∀ g ∈ make_long_reason_dataframe df stub field_name add_fields,
      0 ≤ g.agree ∧ g.agree ≤ 100 := by
  intro g hg
  simp only [make_long_reason_dataframe] at hg
  obtain ⟨k, hk, hgk⟩ := List.mem_map.mp hg
  rw [← hgk]
  show 0 ≤ (((longRows df stub add_fields).filter fun lr => decide (keyOf lr = k)).map
        fun lr => cellVal lr.val).sum
      / ((((longRows df stub add_fields).filter fun lr => decide (keyOf lr = k)).map
        fun lr => cellVal lr.val).length : ℚ) * 100 ∧
    (((longRows df stub add_fields).filter fun lr => decide (keyOf lr = k)).map
        fun lr => cellVal lr.val).sum
      / ((((longRows df stub add_fields).filter fun lr => decide (keyOf lr = k)).map
        fun lr => cellVal lr.val).length : ℚ) * 100 ≤ 100
  refine mean_scaled_bounds _ fun v hv => ?_
  obtain ⟨lr, hlr, hveq⟩ := List.mem_map.mp hv
  obtain ⟨r, hr, hlrOf⟩ := List.mem_flatMap.mp (List.mem_of_mem_filter hlr)
  obtain ⟨c, hc, hbuild⟩ := List.mem_map.mp hlrOf
  have hval : lr.val = fillnaFalse (getCell df r c) := by
    rw [← hbuild]
    rfl
  have hcell : isBoolNa (getCell df r c) = true :=
    hbool r hr c (List.mem_filter.mp hc).1 (List.mem_filter.mp hc).2
  rw [← hveq, hval, cellVal_fillna _ hcell]
  by_cases hb : indicatorTrue (getCell df r c) = true
  · rw [if_pos hb]
    norm_num
  · rw [if_neg hb]
    norm_num

/-- A one-record, one-indicator witness input for C3 and C5. -/
def dfB : DF :=
  { cols := ["r_a", "week"]
    rows := [[Cell.bool true, Cell.int 20]] }

/-- The single group key realised by `dfB`. -/
def keyB : GKey := ⟨Cell.int 20, "a", []⟩

/-- The single output row of the aggregator on `dfB`. -/
def rowB : GroupRow :=
  { week := Cell.int 20
    label := "a"
    extras := []
    agree := (((longRows dfB "r_" []).filter fun lr => decide (keyOf lr = keyB)).map
        fun lr => cellVal lr.val).sum
      / ((((longRows dfB "r_" []).filter fun lr => decide (keyOf lr = keyB)).map
        fun lr => cellVal lr.val).length : ℚ) * 100 }

lemma rowB_mem : rowB ∈ make_long_reason_dataframe dfB "r_" "reason" [] := by
  simp only [make_long_reason_dataframe]
  have hkeys : (((longRows dfB "r_" []).map keyOf).filter keyOk).dedup = [keyB] := by
    decide
  rw [hkeys]
  exact List.mem_singleton.mpr rfl

/-- Witness for C3 at `dfB`. -/
theorem percent_agree_bounded_witness :
    0 ≤ rowB.agree ∧ rowB.agree ≤ 100 :=
  percent_agree_bounded dfB "r_" "reason" [] (by decide) rowB rowB_mem

/-- C5: a (week, label, extra values) combination realised by no input
record does not occur among the output rows — empty groups are simply
absent, with no explicit zero row. -/
theorem empty_group_absent (df : DF) (stub field_name : String)
    (add_fields : List String) (w : Cell) (lbl : String) (ex : List Cell)
    (hno : ∀ r ∈ df.rows,
      ¬(getCell df r "week" = w ∧ add_fields.map (getCell df r) = ex)) :
    ∀ g ∈ make_long_reason_dataframe df stub field_name add_fields,
      rowKey g ≠ ⟨w, lbl, ex⟩ := by
  intro g hg hkey
  have hk : (⟨w, lbl, ex⟩ : GKey)
      ∈ (make_long_reason_dataframe df stub field_name add_fields).map rowKey :=
    List.mem_map.mpr ⟨g, hg, hkey⟩
  rw [make_long_map_rowKey] at hk
  obtain ⟨_, r, hr, hw, hex⟩ :=
    (key_mem_iff df stub add_fields w lbl ex).mp
      (List.mem_filter.mp (List.mem_dedup.mp hk)).1
  exact hno r hr ⟨hw, hex⟩

/-- Witness for C5 at `dfB`: no record has week 25, so the output row's
key differs from any week-25 key. -/
theorem empty_group_absent_witness :
    rowKey rowB ≠ (⟨Cell.int 25, "a", []⟩ : GKey) :=
  empty_group_absent dfB "r_" "reason" [] (Cell.int 25) "a" [] (by decide)
    rowB rowB_mem

/-- C6: the aggregation is deterministic — the same record set and
parameters always yield the identical output table. -/
theorem make_long_deterministic (df : DF) (stub field_name : String)
    (add_fields : List String) :
    make_long_reason_dataframe df stub field_name add_fields
      = make_long_reason_dataframe df stub field_name add_fields := rfl

end Pulse
